import Mathlib

/-!
Verification of the analytics pipeline of `dashboard.py` (stock performance
dashboard).  The pipeline turns a date-indexed matrix of closing prices into
daily fractional returns (`pct_change().fillna(0)`), compounds them into
cumulative percentage returns (`((1 + pct).cumprod() - 1) * 100`), appends
cross-sectional statistic columns (mean, median, std, 2*std), classifies
tickers against the last row, and renders chart traces.

Prices are embedded as `Option ℚ` (`none` is a missing value, pandas NaN).
Float arithmetic on prices is embedded exactly over `ℚ`, extended with the
IEEE special results that the pandas operations can actually produce here:
`+inf`, `-inf` (division by a zero prior price) and `NaN`.
-/

namespace StockDash

/-- Result values of the float computations in the returns pipeline: a finite
value (embedded exactly as a rational), positive or negative infinity, or NaN. -/
inductive FVal where
  | fin : ℚ → FVal
  | posInf : FVal
  | negInf : FVal
  | nan : FVal
deriving DecidableEq

/-- IEEE-style addition on `FVal` (only the cases reachable in the pipeline:
NaN propagates, infinities absorb finite values, opposite infinities give NaN). -/
def FVal.add : FVal → FVal → FVal
  | FVal.nan, _ => FVal.nan
  | _, FVal.nan => FVal.nan
  | FVal.fin a, FVal.fin b => FVal.fin (a + b)
  | FVal.fin _, FVal.posInf => FVal.posInf
  | FVal.fin _, FVal.negInf => FVal.negInf
  | FVal.posInf, FVal.fin _ => FVal.posInf
  | FVal.negInf, FVal.fin _ => FVal.negInf
  | FVal.posInf, FVal.posInf => FVal.posInf
  | FVal.negInf, FVal.negInf => FVal.negInf
  | FVal.posInf, FVal.negInf => FVal.nan
  | FVal.negInf, FVal.posInf => FVal.nan

/-- IEEE-style multiplication on `FVal`: NaN propagates, `0 * ±inf = NaN`,
otherwise infinities follow the sign rule. -/
def FVal.mul : FVal → FVal → FVal
  | FVal.nan, _ => FVal.nan
  | _, FVal.nan => FVal.nan
  | FVal.fin a, FVal.fin b => FVal.fin (a * b)
  | FVal.fin a, FVal.posInf =>
      if a = 0 then FVal.nan else if 0 < a then FVal.posInf else FVal.negInf
  | FVal.fin a, FVal.negInf =>
      if a = 0 then FVal.nan else if 0 < a then FVal.negInf else FVal.posInf
  | FVal.posInf, FVal.fin b =>
      if b = 0 then FVal.nan else if 0 < b then FVal.posInf else FVal.negInf
  | FVal.negInf, FVal.fin b =>
      if b = 0 then FVal.nan else if 0 < b then FVal.negInf else FVal.posInf
  | FVal.posInf, FVal.posInf => FVal.posInf
  | FVal.posInf, FVal.negInf => FVal.negInf
  | FVal.negInf, FVal.posInf => FVal.negInf
  | FVal.negInf, FVal.negInf => FVal.posInf

/-- One step of pandas `pct_change` (`curr / prev - 1` in float arithmetic,
no forward fill): NaN when either price is missing; with a zero prior price
the float division yields `±inf` for a nonzero current price and NaN for a
zero one; otherwise the exact fractional change. -/
def pctChangeStep (prev curr : Option ℚ) : FVal :=
  match prev, curr with
  | none, _ => FVal.nan
  | _, none => FVal.nan
  | some p, some c =>
      if p = 0 then
        if c = 0 then FVal.nan
        else if 0 < c then FVal.posInf
        else FVal.negInf
      else FVal.fin (c / p - 1)

/-- `pct_change` down one price column, carrying the previous price
(the shifted value; `prev = none` before the first row). -/
def pctChangeList : Option ℚ → List (Option ℚ) → List FVal
  | _, [] => []
  | prev, c :: rest => pctChangeStep prev c :: pctChangeList c rest

/-- `price_df.pct_change()` for a single column (first row has no prior
price, hence NaN). -/
def pct_change (prices : List (Option ℚ)) : List FVal :=
  pctChangeList none prices

/-- `fillna(0)`: NaN becomes `0`; infinities are NOT replaced. -/
def fillna0 (v : FVal) : FVal :=
  if v = FVal.nan then FVal.fin 0 else v

/-- `pct_df = price_df.pct_change().fillna(0)` for a single column
(dashboard.py line 76). -/
def pct_df_col (prices : List (Option ℚ)) : List FVal :=
  (pct_change prices).map fillna0

/-- Running product with accumulator, as pandas `cumprod`. -/
def cumprodAux : FVal → List FVal → List FVal
  | _, [] => []
  | acc, v :: rest =>
      let acc2 := acc.mul v
      acc2 :: cumprodAux acc2 rest

/-- pandas `cumprod` on a column. -/
def cumprod (l : List FVal) : List FVal :=
  cumprodAux (FVal.fin 1) l

/-- `total_pct_df = ((1 + pct_df).cumprod() - 1) * 100` for a single column
(dashboard.py line 77). -/
def total_pct_df_col (prices : List (Option ℚ)) : List FVal :=
  (cumprod ((pct_df_col prices).map (fun r => (FVal.fin 1).add r))).map
    (fun v => (v.add (FVal.fin (-1))).mul (FVal.fin 100))

lemma pctChangeList_length (prev : Option ℚ) (l : List (Option ℚ)) :
    (pctChangeList prev l).length = l.length := by
  induction l generalizing prev with
  | nil => rfl
  | cons c rest ih => simp [pctChangeList, ih]

lemma pct_df_col_length (prices : List (Option ℚ)) :
    (pct_df_col prices).length = prices.length := by
  simp [pct_df_col, pct_change, pctChangeList_length]

lemma pctChangeList_getD (d : FVal) (l : List (Option ℚ)) (prev : Option ℚ)
    (t : ℕ) (ht : t < l.length) :
    (pctChangeList prev l).getD t d =
      pctChangeStep (if t = 0 then prev else l.getD (t - 1) none) (l.getD t none) := by
  induction l generalizing prev t with
  | nil => simp at ht
  | cons c rest ih =>
    cases t with
    | zero => simp [pctChangeList]
    | succ s =>
      have hs : s < rest.length := by simpa using ht
      have := ih c s hs
      cases s with
      | zero =>
        simpa [pctChangeList] using this
      | succ u =>
        simpa [pctChangeList] using this

lemma pct_df_col_getD (prices : List (Option ℚ)) (t : ℕ) (h1 : 1 ≤ t)
    (ht : t < prices.length) :
    (pct_df_col prices).getD t FVal.nan =
      fillna0 (pctChangeStep (prices.getD (t - 1) none) (prices.getD t none)) := by
  have hlen : t < (pctChangeList none prices).length := by
    simpa [pctChangeList_length] using ht
  have hmap :
      (pct_df_col prices).getD t FVal.nan =
        fillna0 ((pctChangeList none prices).getD t FVal.nan) := by
    simp only [pct_df_col, pct_change]
    rw [List.getD_eq_getElem _ _ (by simpa using hlen), List.getElem_map,
      List.getD_eq_getElem _ _ hlen]
  rw [hmap, pctChangeList_getD FVal.nan prices none t ht]
  have : ¬ t = 0 := by omega
  simp [this]

/-- Reconstruction of a price column from its computed daily returns by the
formula `price[t] = price[t-1] * (1 + return[t])`, starting from the first
price (the spec round-trip, §8); the arithmetic is the same float arithmetic. -/
def reconstructFrom : FVal → List FVal → List FVal
  | _, [] => []
  | prev, r :: rest =>
      let cur := prev.mul ((FVal.fin 1).add r)
      cur :: reconstructFrom cur rest

/-- Round-trip reconstruction of a fully-present price column from the
returns computed by `pct_df_col` (first element is the first price itself). -/
def reconstruct_prices (prices : List ℚ) : List FVal :=
  match prices with
  | [] => []
  | p0 :: rest =>
      FVal.fin p0 ::
        reconstructFrom (FVal.fin p0) ((pct_df_col ((p0 :: rest).map some)).drop 1)

/-- C1, as stated, is false: with a present prior price of `0` and a present
current price of `1`, `pct_change().fillna(0)` yields `+inf` at index 1 —
not the claimed value `(1-0)/0` (junk-division value `0` in `ℚ`) and not `0`;
an infinity does reach the output. -/
theorem C1_counterexample :
    (pct_df_col [some 0, some 1]).getD 1 FVal.nan = FVal.posInf ∧
      FVal.posInf ≠ FVal.fin ((1 - 0) / 0) ∧ FVal.posInf ≠ FVal.fin 0 := by
  decide

/-- C1 (amended): for every column and every index `t ≥ 1`, the value of
`pct_change().fillna(0)` at `t` equals `(price[t] - price[t-1]) / price[t-1]`
when both prices are present and the prior price is nonzero; it equals `0`
when either price is missing, and also when both prices are present and equal
to `0`; but when the prior price is `0` and the current price is nonzero the
value is `+inf` (current positive) or `-inf` (current negative). -/
theorem C1_amended (prices : List (Option ℚ)) (t : ℕ) (h1 : 1 ≤ t)
    (h2 : t < prices.length) :
    (∀ p c : ℚ, prices.getD (t - 1) none = some p → prices.getD t none = some c →
      p ≠ 0 → (pct_df_col prices).getD t FVal.nan = FVal.fin ((c - p) / p)) ∧
    (prices.getD (t - 1) none = none ∨ prices.getD t none = none →
      (pct_df_col prices).getD t FVal.nan = FVal.fin 0) ∧
    (prices.getD (t - 1) none = some 0 → prices.getD t none = some 0 →
      (pct_df_col prices).getD t FVal.nan = FVal.fin 0) ∧
    (∀ c : ℚ, prices.getD (t - 1) none = some 0 → prices.getD t none = some c →
      0 < c → (pct_df_col prices).getD t FVal.nan = FVal.posInf) ∧
    (∀ c : ℚ, prices.getD (t - 1) none = some 0 → prices.getD t none = some c →
      c < 0 → (pct_df_col prices).getD t FVal.nan = FVal.negInf) := by
  have hbase := pct_df_col_getD prices t h1 h2
  refine ⟨?_, ?_, ?_, ?_, ?_⟩
  · intro p c hp hc hp0
    rw [hbase, hp, hc]
    have hval : (c - p) / p = c / p - 1 := by
      rw [sub_div, div_self hp0]
    simp [pctChangeStep, fillna0, hp0, hval]
  · intro hmiss
    rcases hmiss with hm | hm <;> rw [hbase, hm] <;>
      cases h : prices.getD t none <;> cases h2 : prices.getD (t - 1) none <;>
        simp_all [pctChangeStep, fillna0]
  · intro hp hc
    rw [hbase, hp, hc]
    simp [pctChangeStep, fillna0]
  · intro c hp hc hcpos
    rw [hbase, hp, hc]
    simp [pctChangeStep, fillna0, hcpos, ne_of_gt hcpos]
  · intro c hp hc hcneg
    rw [hbase, hp, hc]
    simp [pctChangeStep, fillna0, not_lt_of_lt hcneg, ne_of_lt hcneg]

/-- Witness for C1 (amended), on the column `[2, 3]` at `t = 1`. -/
theorem C1_witness :
    (pct_df_col [some 2, some 3]).getD 1 FVal.nan = FVal.fin ((3 - 2) / 2) :=
  (C1_amended [some 2, some 3] 1 (by decide) (by decide)).1 2 3
    (by decide) (by decide) (by decide)

/-- C4: for every non-empty price column, the cumulative percentage return
matrix `((1 + pct_df).cumprod() - 1) * 100` has value `0` at the first row
(the first daily return is forced to `0` by `fillna(0)`). -/
theorem C4_confirmed (prices : List (Option ℚ)) (h : prices ≠ []) :
    (total_pct_df_col prices).getD 0 FVal.nan = FVal.fin 0 := by
  match prices, h with
  | p :: rest, _ =>
    simp [total_pct_df_col, pct_df_col, pct_change, pctChangeList, pctChangeStep,
      fillna0, cumprod, cumprodAux, FVal.add, FVal.mul]

/-- Witness for C4 on a one-row column. -/
theorem C4_witness :
    (total_pct_df_col [some 1]).getD 0 FVal.nan = FVal.fin 0 :=
  C4_confirmed [some 1] (by simp)

/-- C9, as stated, is false: the column `[0, 1]` has no missing values, yet
reconstruction from the computed returns gives `[0, NaN]` (the return at
index 1 is `+inf`, and `0 * (1 + inf)` is NaN), not the original `[0, 1]`. -/
theorem C9_counterexample :
    reconstruct_prices [0, 1] = [FVal.fin 0, FVal.nan] ∧
      reconstruct_prices [0, 1] ≠ ([0, 1] : List ℚ).map FVal.fin := by
  decide

lemma reconstructFrom_pct (rest : List ℚ) : ∀ p : ℚ, p ≠ 0 →
    (∀ x ∈ rest, x ≠ 0) →
    reconstructFrom (FVal.fin p) ((pctChangeList (some p) (rest.map some)).map fillna0)
      = rest.map FVal.fin := by
  induction rest with
  | nil => intro p hp h; rfl
  | cons c rest ih =>
    intro p hp h
    have hc : c ≠ 0 := h c (by simp)
    have hq : p * (1 + (c / p - 1)) = c := by
      have h1 : (1 : ℚ) + (c / p - 1) = c / p := by ring
      rw [h1, mul_comm]
      exact div_mul_cancel₀ c hp
    have hstep : pctChangeStep (some p) (some c) = FVal.fin (c / p - 1) := by
      simp [pctChangeStep, hp]
    simp only [List.map_cons, pctChangeList, hstep, reconstructFrom, fillna0]
    rw [if_neg (by simp)]
    have hcur : (FVal.fin p).mul ((FVal.fin 1).add (FVal.fin (c / p - 1)))
        = FVal.fin c := by
      have hred : (FVal.fin p).mul ((FVal.fin 1).add (FVal.fin (c / p - 1)))
          = FVal.fin (p * (1 + (c / p - 1))) := rfl
      rw [hred, hq]
    rw [hcur]
    exact congrArg (FVal.fin c :: ·) (ih c hc (fun x hx => h x (by simp [hx])))

/-- C9 (amended): for every price column with no missing values and all
prices nonzero, reconstructing prices from the computed daily returns via
`price[t] = price[t-1] * (1 + return[t])`, starting from the first price,
reproduces the original price series exactly. -/
theorem C9_amended (prices : List ℚ) (h : ∀ x ∈ prices, x ≠ 0) :
    reconstruct_prices prices = prices.map FVal.fin := by
  cases prices with
  | nil => rfl
  | cons p0 rest =>
    have hp0 : p0 ≠ 0 := h p0 (by simp)
    have hdrop : (pct_df_col (some p0 :: rest.map some)).drop 1
        = (pctChangeList (some p0) (rest.map some)).map fillna0 := by
      simp [pct_df_col, pct_change, pctChangeList]
    simp only [reconstruct_prices, hdrop, List.map_cons]
    rw [reconstructFrom_pct rest p0 hp0 (fun x hx => h x (by simp [hx]))]

/-- Witness for C9 (amended) on the column `[2, 3]`. -/
theorem C9_witness :
    reconstruct_prices [2, 3] = ([2, 3] : List ℚ).map FVal.fin :=
  C9_amended [2, 3] (by decide)

/-!
Cross-sectional statistics layer (dashboard.py lines 79-88).  A row of
`total_pct_df` is an ordered association list from column name (ticker
symbol) to value; `none` embeds a missing value (NaN), which the pandas
row statistics skip (`skipna=True`).
-/

/-- A row of the cumulative-return frame: ordered columns, name to value,
`none` embedding NaN. -/
abbrev Row := List (String × Option ℚ)

/-- The values of a row, in column order. -/
def rowVals (r : Row) : List (Option ℚ) := r.map Prod.snd

/-- pandas `drop(columns=names)` on a row: remove the named columns. -/
def dropCols (r : Row) (names : List String) : Row :=
  r.filter (fun p => !(names.contains p.1))

/-- The non-missing values of a row (pandas `skipna=True`). -/
def presentVals (xs : List (Option ℚ)) : List ℚ := xs.filterMap id

/-- pandas `mean(axis=1)`: mean of the present values, NaN when none. -/
def colMean (xs : List (Option ℚ)) : Option ℚ :=
  let v := presentVals xs
  if v.length = 0 then none else some (v.sum / v.length)

/-- pandas `median(axis=1)`: middle of the sorted present values (mean of
the two middles for an even count), NaN when none. -/
def colMedian (xs : List (Option ℚ)) : Option ℚ :=
  let v := presentVals xs
  let s := List.insertionSort (· ≤ ·) v
  let n := v.length
  if n = 0 then none
  else if n % 2 = 1 then some (s.getD (n / 2) 0)
  else some ((s.getD (n / 2 - 1) 0 + s.getD (n / 2) 0) / 2)

/-- pandas row variance with the default `ddof = 1` (sample variance,
Bessel-corrected), skipping missing values: NaN when fewer than two values
are present. -/
def colVar (xs : List (Option ℚ)) : Option ℚ :=
  let v := presentVals xs
  if v.length ≤ 1 then none
  else
    let m := v.sum / v.length
    some ((v.map (fun x => (x - m) ^ 2)).sum / ((v.length : ℚ) - 1))

/-- pandas `std(axis=1)` (default `ddof = 1`): square root of `colVar`. -/
noncomputable def colStd (xs : List (Option ℚ)) : Option ℝ :=
  (colVar xs).map (fun q => Real.sqrt (q : ℝ))

/-- The cumulative-return row with its four appended statistic columns. -/
structure AnnRow where
  base : Row
  meanV : Option ℚ
  medianV : Option ℚ
  stdV : Option ℝ
  std2V : Option ℝ

/-- dashboard.py lines 79-88 on one row `r` of `total_pct_df`: append
`mean_pct_chg` (mean over all columns present at line 79), then
`median_pct_change` (median after dropping `mean_pct_chg`), then `std`
(after dropping `mean_pct_chg` and `median_pct_change`), then `2std` as
`2 * std`. -/
noncomputable def annotateRow (r : Row) : AnnRow :=
  let m := colMean (rowVals r)
  let withMean : Row := r ++ [("mean_pct_chg", m)]
  let med := colMedian (rowVals (dropCols withMean ["mean_pct_chg"]))
  let withMedian : Row := withMean ++ [("median_pct_change", med)]
  let sd := colStd (rowVals (dropCols withMedian ["mean_pct_chg", "median_pct_change"]))
  let sd2 := sd.map (fun x => 2 * x)
  { base := r, meanV := m, medianV := med, stdV := sd, std2V := sd2 }

lemma dropCols_of_names_free (r : Row) (names : List String)
    (h : ∀ p ∈ r, ¬ (names.contains p.1 = true)) : dropCols r names = r := by
  unfold dropCols
  rw [List.filter_eq_self]
  intro a ha
  simpa using h a ha

lemma annotateRow_meanV (r : Row) : (annotateRow r).meanV = colMean (rowVals r) := rfl

lemma annotateRow_medianV (r : Row)
    (h : ∀ p ∈ r, p.1 ≠ "mean_pct_chg" ∧ p.1 ≠ "median_pct_change") :
    (annotateRow r).medianV = colMedian (rowVals r) := by
  have hdrop : dropCols (r ++ [("mean_pct_chg", colMean (rowVals r))]) ["mean_pct_chg"]
      = r := by
    unfold dropCols
    rw [List.filter_append]
    have h1 : r.filter (fun p => !(["mean_pct_chg"].contains p.1)) = r := by
      apply dropCols_of_names_free r ["mean_pct_chg"]
      intro p hp
      simpa using (h p hp).1
    rw [h1]
    simp
  simp only [annotateRow, hdrop]

lemma annotateRow_stdV (r : Row)
    (h : ∀ p ∈ r, p.1 ≠ "mean_pct_chg" ∧ p.1 ≠ "median_pct_change") :
    (annotateRow r).stdV = colStd (rowVals r) := by
  have hdrop : ∀ m med : Option ℚ,
      dropCols ((r ++ [("mean_pct_chg", m)]) ++ [("median_pct_change", med)])
        ["mean_pct_chg", "median_pct_change"] = r := by
    intro m med
    unfold dropCols
    rw [List.filter_append, List.filter_append]
    have h1 : r.filter (fun p => !(["mean_pct_chg", "median_pct_change"].contains p.1))
        = r := by
      apply dropCols_of_names_free r ["mean_pct_chg", "median_pct_change"]
      intro p hp
      simpa using h p hp
    rw [h1]
    simp
  simp only [annotateRow, hdrop]

lemma annotateRow_std2V (r : Row) :
    (annotateRow r).std2V = ((annotateRow r).stdV).map (fun x => 2 * x) := rfl

/-- C3: with no ticker named like a statistic column, the appended mean is
the mean of the ticker columns only; the median is over the ticker columns
with `mean_pct_chg` dropped, i.e. the ticker values; the std is over the
ticker columns with both `mean_pct_chg` and `median_pct_change` dropped,
i.e. the ticker values. -/
theorem C3_confirmed (r : Row)
    (h : ∀ p ∈ r, p.1 ≠ "mean_pct_chg" ∧ p.1 ≠ "median_pct_change") :
    (annotateRow r).meanV = colMean (rowVals r) ∧
    (annotateRow r).medianV = colMedian (rowVals r) ∧
    (annotateRow r).stdV = colStd (rowVals r) :=
  ⟨annotateRow_meanV r, annotateRow_medianV r h, annotateRow_stdV r h⟩

/-- Witness for C3 on a two-ticker row. -/
theorem C3_witness :
    (annotateRow [("A.NS", some 1), ("B.NS", some 2)]).stdV
      = colStd (rowVals [("A.NS", some 1), ("B.NS", some 2)]) :=
  (C3_confirmed [("A.NS", some 1), ("B.NS", some 2)] (by decide)).2.2

/-- C2, as stated, is false on two counts: a row with exactly one ticker
column gets a missing std (pandas `std` uses `ddof = 1`, so a single value
gives NaN), not `0`; and the std of the row with ticker values
`10, -10, 0` is `sqrt 100 = 10` (sample std), not the population std
`sqrt(200/3) = 8.1650...`. -/
theorem C2_counterexample :
    (annotateRow [("A.NS", some 5)]).stdV ≠ some (0 : ℝ) ∧
    (annotateRow [("X.NS", some 10), ("Y.NS", some (-10)), ("Z.NS", some 0)]).stdV
        = some (Real.sqrt 100) ∧
    (annotateRow [("X.NS", some 10), ("Y.NS", some (-10)), ("Z.NS", some 0)]).stdV
        ≠ some (Real.sqrt (200 / 3)) := by
  have h1 : (annotateRow [("A.NS", some 5)]).stdV = none := by
    rw [annotateRow_stdV _ (by decide)]
    have hv : colVar (rowVals [("A.NS", some 5)]) = none := by decide
    simp [colStd, hv]
  have h2 : (annotateRow [("X.NS", some 10), ("Y.NS", some (-10)), ("Z.NS", some 0)]).stdV
      = some (Real.sqrt 100) := by
    rw [annotateRow_stdV _ (by decide)]
    have hv : colVar (rowVals [("X.NS", some 10), ("Y.NS", some (-10)), ("Z.NS", some 0)])
        = some 100 := by
      simp [colVar, presentVals, rowVals]
      norm_num
    simp [colStd, hv]
  refine ⟨by simp [h1], h2, ?_⟩
  rw [h2]
  intro hcontra
  have heq : (100 : ℝ) = 200 / 3 :=
    (Real.sqrt_inj (by norm_num) (by norm_num)).mp (Option.some_injective _ hcontra)
  norm_num at heq

/-- C2 (amended): the std column is the sample standard deviation
(`ddof = 1`): a row with at most one present ticker value has a missing
(NaN) std, and a row with at least two present ticker values has a defined,
non-negative std. -/
theorem C2_amended (r : Row)
    (h : ∀ p ∈ r, p.1 ≠ "mean_pct_chg" ∧ p.1 ≠ "median_pct_change") :
    ((presentVals (rowVals r)).length ≤ 1 → (annotateRow r).stdV = none) ∧
    (2 ≤ (presentVals (rowVals r)).length →
      ∃ v : ℝ, (annotateRow r).stdV = some v ∧ 0 ≤ v) := by
  rw [annotateRow_stdV r h]
  constructor
  · intro hlen
    simp [colStd, colVar, hlen]
  · intro hlen
    have hnot : ¬ (presentVals (rowVals r)).length ≤ 1 := by omega
    obtain ⟨q, hq⟩ : ∃ q, colVar (rowVals r) = some q := by
      simp [colVar, hnot]
    exact ⟨Real.sqrt q, by simp [colStd, hq], Real.sqrt_nonneg _⟩

/-- Witness for C2 (amended) on a two-ticker row. -/
theorem C2_witness :
    ∃ v : ℝ, (annotateRow [("A.NS", some 1), ("B.NS", some 3)]).stdV = some v ∧ 0 ≤ v :=
  (C2_amended [("A.NS", some 1), ("B.NS", some 3)] (by decide)).2 (by decide)

/-- C8: the `2std` column is derived from the `std` column by doubling
(`2 * total_pct_df["std"]`): it is `Option.map (2 * .)` of std, and in
particular whenever std is defined with value `v`, `2std` is defined with
value `2 * v` on the same row. -/
theorem C8_confirmed (r : Row) :
    (annotateRow r).std2V = ((annotateRow r).stdV).map (fun x => 2 * x) ∧
    ∀ v : ℝ, (annotateRow r).stdV = some v → (annotateRow r).std2V = some (2 * v) := by
  refine ⟨annotateRow_std2V r, ?_⟩
  intro v hv
  rw [annotateRow_std2V r, hv]
  rfl

/-- Witness for C8 on a concrete two-ticker row whose std is `sqrt 2`. -/
theorem C8_witness :
    (annotateRow [("A.NS", some 1), ("B.NS", some 3)]).std2V
      = some (2 * Real.sqrt 2) := by
  have hstd : (annotateRow [("A.NS", some 1), ("B.NS", some 3)]).stdV
      = some (Real.sqrt 2) := by
    rw [annotateRow_stdV _ (by decide)]
    have hv : colVar (rowVals [("A.NS", some 1), ("B.NS", some 3)]) = some 2 := by
      simp [colVar, presentVals, rowVals]
      norm_num
    simp [colStd, hv]
  exact (C8_confirmed [("A.NS", some 1), ("B.NS", some 3)]).2 (Real.sqrt 2) hstd

/-!
Classification and chart layer (dashboard.py lines 97-185) and the
no-data boundary (lines 69-71), plus the ticker-group construction
(lines 31-52).
-/

/-- The five values of the sidebar radio `filter_option` (line 99). -/
inductive FilterOption where
  | allStocks : FilterOption
  | aboveMean : FilterOption
  | aboveMedian : FilterOption
  | aboveStd : FilterOption
  | above2Std : FilterOption
deriving DecidableEq

/-- Float strict greater-than on last-row values; a missing (NaN) operand
compares false, as in Python. -/
def ogt (a b : Option ℚ) : Prop :=
  match a, b with
  | some x, some y => y < x
  | _, _ => False

/-- Float strict greater-than against a real-valued statistic (the std
columns); a missing (NaN) operand compares false. -/
def ogtR (a : Option ℚ) (b : Option ℝ) : Prop :=
  match a, b with
  | some x, some y => y < (x : ℝ)
  | _, _ => False

/-- Loop body of lines 121-131: `show` starts `True`; each filter branch
replaces it by the comparison of the column's last value against the
corresponding statistic of the last row. -/
def showStock (mode : FilterOption) (last : AnnRow) (v : Option ℚ) : Prop :=
  match mode with
  | FilterOption.allStocks => True
  | FilterOption.aboveMean => ogt v last.meanV
  | FilterOption.aboveMedian => ogt v last.medianV
  | FilterOption.aboveStd => ogtR v last.stdV
  | FilterOption.above2Std => ogtR v last.std2V

/-- A ticker symbol is selected (its trace added by the loop) when some
column of that name has a last value passing the mode's comparison. -/
def selectedTickers (mode : FilterOption) (last : AnnRow) (s : String) : Prop :=
  ∃ v, (s, v) ∈ last.base ∧ showStock mode last v

/-- Modelled from the spec wording of C5: `All` selects every ticker;
the other modes select tickers whose last value is strictly greater than
the last mean / median / std / 2*std respectively. -/
def classifySpec (mode : FilterOption) (last : AnnRow) (s : String) : Prop :=
  match mode with
  | FilterOption.allStocks => ∃ v, (s, v) ∈ last.base
  | FilterOption.aboveMean => ∃ v, (s, v) ∈ last.base ∧ ogt v last.meanV
  | FilterOption.aboveMedian => ∃ v, (s, v) ∈ last.base ∧ ogt v last.medianV
  | FilterOption.aboveStd => ∃ v, (s, v) ∈ last.base ∧ ogtR v last.stdV
  | FilterOption.above2Std => ∃ v, (s, v) ∈ last.base ∧ ogtR v last.std2V

lemma snd_unique_of_nodup_keys (l : Row) (hnd : (l.map Prod.fst).Nodup)
    {s : String} {v w : Option ℚ} (h1 : (s, v) ∈ l) (h2 : (s, w) ∈ l) : v = w := by
  induction l with
  | nil => cases h1
  | cons a l ih =>
    rw [List.map_cons, List.nodup_cons] at hnd
    rcases List.mem_cons.mp h1 with e1 | m1
    · rcases List.mem_cons.mp h2 with e2 | m2
      · have := e1.trans e2.symm
        simpa using this
      · exfalso
        apply hnd.1
        rw [← e1]
        exact List.mem_map.mpr ⟨(s, w), m2, rfl⟩
    · rcases List.mem_cons.mp h2 with e2 | m2
      · exfalso
        apply hnd.1
        rw [← e2]
        exact List.mem_map.mpr ⟨(s, v), m1, rfl⟩
      · exact ih hnd.2 m1 m2

/-- C5: for every annotated last row and every mode, the loop's selection
is exactly the spec predicate (mode `All` selects every ticker present; the
other modes use a strict greater-than against the last-row statistic), and
ties are excluded: a ticker whose last value equals the last mean is not
selected by the above-mean filter (given unique column names). -/
theorem C5_confirmed :
    (∀ (mode : FilterOption) (last : AnnRow) (s : String),
        selectedTickers mode last s ↔ classifySpec mode last s) ∧
    (∀ (last : AnnRow) (s : String) (v : Option ℚ),
        (last.base.map Prod.fst).Nodup → (s, v) ∈ last.base → v = last.meanV →
          ¬ selectedTickers FilterOption.aboveMean last s) := by
  constructor
  · intro mode last s
    cases mode <;> simp [selectedTickers, classifySpec, showStock]
  · rintro last s v hnd hmem heq ⟨w, hw, hshow⟩
    have hvw : v = w := snd_unique_of_nodup_keys last.base hnd hmem hw
    rw [← hvw, heq] at hshow
    simp only [showStock, ogt] at hshow
    rcases h : last.meanV with _ | y
    · rw [h] at hshow
      exact hshow
    · rw [h] at hshow
      exact lt_irrefl y hshow

/-- Witness for C5 (ties excluded) on a one-ticker row whose last value
equals the mean. -/
theorem C5_witness :
    ¬ selectedTickers FilterOption.aboveMean
      ⟨[("A.NS", some 1)], some 1, some 1, none, none⟩ "A.NS" :=
  C5_confirmed.2 ⟨[("A.NS", some 1)], some 1, some 1, none, none⟩ "A.NS" (some 1)
    (by decide) (by decide) rfl

/-- The ticker columns whose traces the loop adds, in column order
(lines 121-141). -/
noncomputable def shownCols (mode : FilterOption) (last : AnnRow) : List String :=
  (last.base.filter
    (fun p => @decide (showStock mode last p.2) (Classical.propDecidable _))).map Prod.fst

/-- The ordered list of trace names added to the figure: the filtered stock
traces (lines 121-141), then the four reference lines in fixed order
(lines 146-172). -/
noncomputable def chartTraces (mode : FilterOption) (last : AnnRow) : List String :=
  shownCols mode last ++ ["Mean", "Median", "Std Dev", "2 Std Dev"]

/-- C6: for every filter mode and classification result, the rendered trace
list is the filtered stock traces followed by the four statistic traces
`Mean`, `Median`, `Std Dev`, `2 Std Dev`, in that fixed order as a suffix;
all four are present regardless of the filter mode. -/
theorem C6_confirmed (mode : FilterOption) (last : AnnRow) :
    chartTraces mode last
        = shownCols mode last ++ ["Mean", "Median", "Std Dev", "2 Std Dev"] ∧
    List.IsSuffix ["Mean", "Median", "Std Dev", "2 Std Dev"] (chartTraces mode last) ∧
    "Mean" ∈ chartTraces mode last ∧ "Median" ∈ chartTraces mode last ∧
    "Std Dev" ∈ chartTraces mode last ∧ "2 Std Dev" ∈ chartTraces mode last := by
  refine ⟨rfl, ⟨shownCols mode last, rfl⟩, ?_, ?_, ?_, ?_⟩ <;> simp [chartTraces]

/-- The downloaded close-price frame (line 62-67): a date index and one
price column per ticker. -/
structure PriceFrame where
  dates : List String
  cols : List (String × List (Option ℚ))

/-- pandas `DataFrame.empty` (line 69): true when either axis has length 0. -/
def PriceFrame.isEmpty (f : PriceFrame) : Bool :=
  f.dates.isEmpty || f.cols.isEmpty

/-- View of a float result as an optional rational for the statistics
layer; a non-finite result is treated as a missing value. -/
def FVal.toOpt : FVal → Option ℚ
  | FVal.fin q => some q
  | _ => none

/-- Result of one pipeline run: the no-data warning with `st.stop()` (no
computation, no table, no chart), or a rendered chart (its ordered trace
names) together with the optional table. -/
inductive Outcome where
  | noData : Outcome
  | rendered : Option (List Row) → List String → Outcome

/-- Number of chart traces an outcome renders. -/
def Outcome.traceCount : Outcome → ℕ
  | Outcome.noData => 0
  | Outcome.rendered _ ts => ts.length

/-- The table an outcome displays, if any. -/
def Outcome.tableOf : Outcome → Option (List Row)
  | Outcome.noData => none
  | Outcome.rendered tb _ => tb

/-- The pipeline from the downloaded prices on (lines 69-185): on an empty
price frame, warn and stop before any computation; otherwise compute the
cumulative returns, the statistics of the last row, the optional last-50
table and the filtered chart traces. -/
noncomputable def pipeline (f : PriceFrame) (mode : FilterOption)
    (showTable : Bool) : Outcome :=
  if f.isEmpty then Outcome.noData
  else
    let cols := f.cols.map (fun c => (c.1, total_pct_df_col c.2))
    let rowAt : ℕ → Row := fun t => cols.map (fun c => (c.1, (c.2.getD t FVal.nan).toOpt))
    let rows := (List.range f.dates.length).map rowAt
    let lastRow := annotateRow (rowAt (f.dates.length - 1))
    let table := if showTable then some (rows.drop (rows.length - 50)) else none
    Outcome.rendered table (chartTraces mode lastRow)

/-- C7: whenever the price source returns an empty frame, the pipeline
surfaces the warning outcome and halts: zero rendered traces, no table,
and (being a total function) no crash. -/
theorem C7_confirmed (f : PriceFrame) (mode : FilterOption) (showTable : Bool)
    (h : f.isEmpty = true) :
    pipeline f mode showTable = Outcome.noData ∧
    (pipeline f mode showTable).traceCount = 0 ∧
    (pipeline f mode showTable).tableOf = none := by
  have hp : pipeline f mode showTable = Outcome.noData := by
    simp [pipeline, h]
  exact ⟨hp, by rw [hp]; rfl, by rw [hp]; rfl⟩

/-- Witness for C7 on the empty price frame. -/
theorem C7_witness :
    pipeline ⟨[], []⟩ FilterOption.allStocks false = Outcome.noData ∧
    (pipeline ⟨[], []⟩ FilterOption.allStocks false).traceCount = 0 ∧
    (pipeline ⟨[], []⟩ FilterOption.allStocks false).tableOf = none :=
  C7_confirmed ⟨[], []⟩ FilterOption.allStocks false rfl

/-- An entry of `stock_list.csv`: ticker symbol and possibly-missing
market cap. -/
abbrev McapEntry := String × Option ℚ

/-- `stock_mcap_df.fillna(0)` (line 32): missing market caps become 0. -/
def fillMcap (l : List McapEntry) : List (String × ℚ) :=
  l.map (fun p => (p.1, p.2.getD 0))

/-- Comparison of `sort_values(by="market_cap", ascending=False)` (line 33):
descending market cap. -/
def mcapGE (a b : String × ℚ) : Prop := b.2 ≤ a.2

instance : DecidableRel mcapGE :=
  fun a b => inferInstanceAs (Decidable (b.2 ≤ a.2))

instance : IsTotal (String × ℚ) mcapGE :=
  ⟨fun a b => le_total b.2 a.2⟩

instance : IsTrans (String × ℚ) mcapGE :=
  ⟨fun _ _ _ h1 h2 => le_trans h2 h1⟩

/-- Lines 32-34: fill missing market caps with 0, then sort the list by
descending market cap. -/
def stock_mcap_sorted (l : List McapEntry) : List (String × ℚ) :=
  List.insertionSort mcapGE (fillMcap l)

/-- Lines 49-52: the fixed-size group slice `iloc[start_idx:end_idx]` with
`group_size = 200`. -/
def groupSlice (n : ℕ) (l : List (String × ℚ)) : List (String × ℚ) :=
  (l.drop ((n - 1) * 200)).take 200

/-- C10: every missing market cap is replaced by 0 before the descending
sort, so a ticker with a missing cap appears in the sorted list (with cap
0) strictly after every ticker with a positive cap, and the group slicing
is total (each group has at most 200 entries) — grouping never fails on
missing market-cap data. -/
theorem C10_confirmed (l : List McapEntry) :
    (∀ s : String, (s, (none : Option ℚ)) ∈ l → (s, (0 : ℚ)) ∈ stock_mcap_sorted l) ∧
    (∀ i j (hi : i < (stock_mcap_sorted l).length)
        (hj : j < (stock_mcap_sorted l).length),
      ((stock_mcap_sorted l).get ⟨i, hi⟩).2 = 0 →
        0 < ((stock_mcap_sorted l).get ⟨j, hj⟩).2 → j < i) ∧
    (∀ n : ℕ, (groupSlice n (stock_mcap_sorted l)).length ≤ 200) := by
  refine ⟨?_, ?_, ?_⟩
  · intro s hs
    apply (List.perm_insertionSort mcapGE (fillMcap l)).mem_iff.mpr
    exact List.mem_map.mpr ⟨(s, none), hs, rfl⟩
  · intro i j hi hj hzero hpos
    have hsorted : List.Sorted mcapGE (stock_mcap_sorted l) :=
      List.sorted_insertionSort mcapGE (fillMcap l)
    rcases lt_trichotomy j i with h | h | h
    · exact h
    · exfalso
      subst h
      have h0 : (0 : ℚ) < 0 := lt_of_lt_of_le hpos (le_of_eq hzero)
      exact lt_irrefl 0 h0
    · exfalso
      have hrel : mcapGE ((stock_mcap_sorted l).get ⟨i, hi⟩)
          ((stock_mcap_sorted l).get ⟨j, hj⟩) :=
        hsorted.rel_get_of_lt (by exact h)
      unfold mcapGE at hrel
      rw [hzero] at hrel
      exact absurd (lt_of_lt_of_le hpos hrel) (lt_irrefl 0)
  · intro n
    exact List.length_take_le 200 _

/-- Witness for C10: the missing-cap ticker `A` lands after the
positive-cap ticker `B`. -/
theorem C10_witness :
    ("A", (0 : ℚ)) ∈ stock_mcap_sorted [("A", none), ("B", some 5)] ∧ (0 : ℕ) < 1 :=
  ⟨(C10_confirmed [("A", none), ("B", some 5)]).1 "A" (by decide),
   (C10_confirmed [("A", none), ("B", some 5)]).2.1 1 0 (by decide) (by decide)
     (by decide) (by decide)⟩

end StockDash
